import Mathlib

/-
Shallow embedding of the powergen-rs dataflow core (src/src/lib.rs).

Heap model: Rust's `Arc<RefCell<dyn Node>>` objects live in a `World`,
a list of node slots indexed by node id; a destroyed node is a `none`
slot, so a `Weak<RefCell<dyn Node>>` is modelled as a bare node id
whose `upgrade` consults the world.  Callback dispatch is modelled by
its observable trace: invoking callback `idx` of node `n` with atom
`v` is the event `(n, idx, v)`.  A Rust panic (assert_eq!, unwrap on
None, out-of-bounds indexing) is modelled as an explicit error value;
on panic the state reached so far is carried along unchanged, matching
unwinding before any further mutation.
-/

/-- The discriminant tags of `Atom` (strum's `AtomDiscriminants`):
variants `Entity(u8)` and the test-only `TestUsize(usize)`. -/
inductive AtomDiscriminants where
  | Entity
  | TestUsize
deriving DecidableEq, Repr

/-- `Atom`: the tagged value union.  Payloads (`u8`, `usize`) are
modelled as `Nat`; no claim depends on payload overflow. -/
inductive Atom where
  | Entity (v : Nat)
  | TestUsize (v : Nat)
deriving DecidableEq, Repr

/-- `next.into()`: the discriminant of an atom. -/
def Atom.discriminant : Atom → AtomDiscriminants
  | .Entity _ => .Entity
  | .TestUsize _ => .TestUsize

/-- `InputParameter { node: Weak<RefCell<dyn Node>>, idx, typ }`.
The weak node reference is the node's id in the `World`. -/
structure InputParameter where
  node : Nat
  idx : Nat
  typ : AtomDiscriminants
deriving DecidableEq, Repr

/-- `Link { typ, latest_value, sinks }`. -/
structure Link where
  typ : AtomDiscriminants
  latest_value : Option Atom
  sinks : List InputParameter
deriving DecidableEq, Repr

/-- `Link::new(typ)`. -/
def Link.new (typ : AtomDiscriminants) : Link :=
  { typ := typ, latest_value := none, sinks := [] }

/-- `Link::get_latest`. -/
def Link.get_latest (l : Link) : Option Atom :=
  l.latest_value

/-- `Link::add_sink`: `self.sinks.push(sink.clone())`. -/
def Link.add_sink (l : Link) (sink : InputParameter) : Link :=
  { l with sinks := l.sinks ++ [sink] }

/-- A live node object, as built by `SimpleNode::from_template`:
its owned output links, and the number of callback refs that
`initialize_callback_refs` installed (one per entry of
`T::callback_fns(state)`), so `get_callback_ref(idx)` is defined
exactly for `idx < callback_count`. -/
structure NodeObj where
  out_links : List Link
  callback_count : Nat
deriving DecidableEq, Repr

/-- The heap of node objects: slot `i` holds node id `i`;
`none` means the node was destroyed (all strong refs dropped). -/
structure World where
  nodes : List (Option NodeObj)
deriving DecidableEq, Repr

/-- `Weak::upgrade` on a node id: `some` iff the node is still alive. -/
def World.upgrade (w : World) (id : Nat) : Option NodeObj :=
  w.nodes.getD id none

/-- A callback invocation event: node id, callback index, value. -/
abbrev Event := Nat × Nat × Atom

/-- `InputParameter::mark_changed`:
`self.node.upgrade().unwrap().borrow().get_callback_ref(self.idx)(value)`.
The `.unwrap()` panics when the weak node reference is dead; the
indexing `callback_refs.borrow()[idx]` panics when out of range
(`from_template` always initializes the refs, so the `is_some`
assertion inside `get_callback_ref` holds for every live node). -/
def InputParameter.mark_changed (p : InputParameter) (w : World) (value : Atom) :
    Except String Event :=
  match w.upgrade p.node with
  | none => .error "called Option.unwrap on a None value"
  | some node =>
      if p.idx < node.callback_count then .ok (p.node, p.idx, value)
      else .error "index out of bounds"

/-- The fan-out loop of `Link::update`: dispatch to each sink in
subscription order, stopping (panicking) at the first dead sink. -/
def dispatchSinks (w : World) (value : Atom) :
    List InputParameter → List Event × Option String
  | [] => ([], none)
  | s :: rest =>
      match s.mark_changed w value with
      | .error msg => ([], some msg)
      | .ok e =>
          let (evs, p) := dispatchSinks w value rest
          (e :: evs, p)

/-- Outcome of `Link::update`: the link state reached, the ordered
trace of callback invocations, and the panic message if it panicked. -/
structure UpdateOut where
  link : Link
  events : List Event
  panicMsg : Option String
deriving DecidableEq, Repr

/-- `Link::update(next)`: `assert_eq!(self.typ, next.into())`, then
`self.latest_value = Some(next)`, then `sink.mark_changed(next)` over
`self.sinks` in order. -/
def Link.update (l : Link) (w : World) (next : Atom) : UpdateOut :=
  if l.typ = next.discriminant then
    let l2 := { l with latest_value := some next }
    let (evs, p) := dispatchSinks w next l2.sinks
    { link := l2, events := evs, panicMsg := p }
  else
    { link := l, events := [], panicMsg := some "assertion failed: left == right" }

/-- `OutputParameter { node: Weak<RefCell<dyn Node>>, idx, typ }`. -/
structure OutputParameter where
  node : Nat
  idx : Nat
  typ : AtomDiscriminants
deriving DecidableEq, Repr

/-- Outcome of `attach`: the world reached, the trace of callback
invocations it performed (always empty: `add_sink` dispatches
nothing), and the panic message if it panicked. -/
structure AttachOut where
  world : World
  events : List Event
  panicMsg : Option String
deriving DecidableEq, Repr

/-- `attach(from_param, to_param)`:
`if let Some(src_ref) = from_param.node.upgrade()` (silently returns
when the source node is dead), then `assert_eq!(from_param.typ,
to_param.typ)`, then `src.out_links()[from_param.idx].add_sink(to_param)`
(the indexing panics when out of range). -/
def attach (w : World) (from_param : OutputParameter) (to_param : InputParameter) :
    AttachOut :=
  match w.upgrade from_param.node with
  | none => { world := w, events := [], panicMsg := none }
  | some src =>
      if from_param.typ = to_param.typ then
        match src.out_links[from_param.idx]? with
        | some link =>
            let src2 : NodeObj :=
              { src with out_links := src.out_links.set from_param.idx (link.add_sink to_param) }
            { world := { nodes := w.nodes.set from_param.node (some src2) },
              events := [], panicMsg := none }
        | none => { world := w, events := [], panicMsg := some "index out of bounds" }
      else
        { world := w, events := [], panicMsg := some "assertion failed: left == right" }

/-- Number of sinks of output link `idx` of node `nid` (0 if the node
is dead or the index is out of range). -/
def sinkCount (w : World) (nid idx : Nat) : Nat :=
  match w.upgrade nid with
  | some n =>
      match n.out_links[idx]? with
      | some l => l.sinks.length
      | none => 0
  | none => 0

/-- `true` iff dispatching to sink `s` in world `w` cannot panic: the
owning node upgrades and the callback index is in range. -/
def sinkLive (w : World) (s : InputParameter) : Bool :=
  match w.upgrade s.node with
  | some n => decide (s.idx < n.callback_count)
  | none => false

/- ===== Graph synthesis ===== -/

/-- `TypeMultiset = HashMap<AtomDiscriminants, u8>`, modelled as an
association list with unique keys (a deterministic refinement of the
hash map; iteration order never influences an observable result). -/
abbrev TypeMultiset := List (AtomDiscriminants × Nat)

/-- `HashMap::get`. -/
def getCount : TypeMultiset → AtomDiscriminants → Option Nat
  | [], _ => none
  | (k2, n) :: rest, k => if k2 = k then some n else getCount rest k

/-- The key list of a multiset. -/
def mkeys (m : TypeMultiset) : List AtomDiscriminants :=
  m.map Prod.fst

/-- `contains(haystack, needle)`: `for (typ, num) in needle { if num >
haystack.get(typ).unwrap_or(&0) { return false } } true`. -/
def contains (haystack needle : TypeMultiset) : Bool :=
  needle.all fun p => decide (p.2 ≤ (getCount haystack p.1).getD 0)

/-- `counts.entry(k).and_modify(|e| *e += v).or_insert(v)`. -/
def addCount : TypeMultiset → AtomDiscriminants → Nat → TypeMultiset
  | [], k, v => [(k, v)]
  | (k2, n) :: rest, k, v =>
      if k2 = k then (k2, n + v) :: rest else (k2, n) :: addCount rest k v

/-- `next_types.entry(k).and_modify(|e| *e -= v)`: no-op when the key
is absent; `none` models the u8 subtract-with-overflow panic. -/
def subCount : TypeMultiset → AtomDiscriminants → Nat → Option TypeMultiset
  | [], _, _ => some []
  | (k2, n) :: rest, k, v =>
      if k2 = k then
        if v ≤ n then some ((k2, n - v) :: rest) else none
      else
        (subCount rest k v).map fun m => (k2, n) :: m

/-- `type_set(types)`: `*counts.entry(typ).or_insert(0) += 1` over the
type list. -/
def type_set (types : List AtomDiscriminants) : TypeMultiset :=
  types.foldl (fun counts typ => addCount counts typ 1) []

/-- The subtraction loop `for (typ, count) in in_type_set`. -/
def subAll : TypeMultiset → TypeMultiset → Option TypeMultiset
  | m, [] => some m
  | m, (k, c) :: rest =>
      match subCount m k c with
      | some m2 => subAll m2 rest
      | none => none

/-- The addition loop `for (typ, count) in out_type_set`. -/
def addAll : TypeMultiset → TypeMultiset → TypeMultiset
  | m, [] => m
  | m, (k, c) :: rest => addAll (addCount m k c) rest

/-- `next_types.iter().all(|(_k, count)| count == &0)`. -/
def allZero (m : TypeMultiset) : Bool :=
  m.all fun p => p.2 == 0

/-- `NodeTemplate`, reduced to what `generate_graphs` consumes:
its ordered input and output discriminant lists. -/
structure NodeTemplate where
  in_types : List AtomDiscriminants
  out_types : List AtomDiscriminants
deriving DecidableEq, Repr

/-- The body of one round of `generate_graphs` for a dequeued frontier
entry `(available, path)`: iterate `templates_by_type` in catalog
order, keep those whose input multiset is contained in `available`,
derive each successor (subtract inputs, add outputs, extend path) and
classify it — all counts zero: push back onto the work queue; any
nonzero count: record as a result.  Returns (queue pushes, result
pushes) in order; `error` models the u8 underflow panic. -/
def processTemplates (tbt : List (TypeMultiset × NodeTemplate × TypeMultiset))
    (available : TypeMultiset) (path : List NodeTemplate) :
    Except String (List (TypeMultiset × List NodeTemplate) × List (List NodeTemplate)) :=
  match tbt with
  | [] => .ok ([], [])
  | (inSet, t, outSet) :: rest =>
      if contains available inSet then
        match subAll available inSet with
        | none => .error "attempt to subtract with overflow"
        | some afterSub =>
            let nextTypes := addAll afterSub outSet
            let nextPath := path ++ [t]
            match processTemplates rest available path with
            | .error e => .error e
            | .ok (qs, rs) =>
                if allZero nextTypes then .ok ((nextTypes, nextPath) :: qs, rs)
                else .ok (qs, nextPath :: rs)
      else processTemplates rest available path

/-- The `for i in 1..5` loop of `generate_graphs`: each round pops at
most one frontier entry from the queue and processes it. -/
def roundsGG (tbt : List (TypeMultiset × NodeTemplate × TypeMultiset)) :
    Nat → List (TypeMultiset × List NodeTemplate) → List (List NodeTemplate) →
    Except String (List (List NodeTemplate))
  | 0, _, results => .ok results
  | n + 1, [], results => roundsGG tbt n [] results
  | n + 1, (available, path) :: restQ, results =>
      match processTemplates tbt available path with
      | .error e => .error e
      | .ok (qs, rs) => roundsGG tbt n (restQ ++ qs) (results ++ rs)

/-- `generate_graphs(templates)`: build `templates_by_type`, seed the
queue with `(empty, empty)`, run 4 rounds, return the results. -/
def generate_graphs (templates : List NodeTemplate) :
    Except String (List (List NodeTemplate)) :=
  let tbt := templates.map fun t => (type_set t.in_types, t, type_set t.out_types)
  roundsGG tbt 4 [([], [])] []

/-- Template A of the test catalog (`EmitUsizeTemplate`): no inputs,
one `TestUsize` output. -/
def templateA : NodeTemplate :=
  { in_types := [], out_types := [AtomDiscriminants.TestUsize] }

/-- Template B of the test catalog (`TakeUsizeTemplate`): one
`TestUsize` input, no outputs. -/
def templateB : NodeTemplate :=
  { in_types := [AtomDiscriminants.TestUsize], out_types := [] }


/- ===== Witness fixtures ===== -/

/-- A world with one live node holding one callback and no outputs. -/
def witWorld1 : World := ⟨[some ⟨[], 1⟩]⟩

/-- A world with two live nodes, each holding one callback. -/
def witWorld2 : World := ⟨[some ⟨[], 1⟩, some ⟨[], 1⟩]⟩

/-- A world whose only node (id 0) has been destroyed. -/
def witWorldDead : World := ⟨[none]⟩

/-- A world with one live node owning one `Entity` output link. -/
def witWorldSrc : World := ⟨[some ⟨[Link.new AtomDiscriminants.Entity], 0⟩]⟩

/-- An empty `TestUsize` link with no sinks. -/
def witLink0 : Link := ⟨AtomDiscriminants.TestUsize, none, []⟩

/-- A `TestUsize` link subscribed by one port of each of nodes 0, 1. -/
def witLink2 : Link :=
  ⟨AtomDiscriminants.TestUsize, none,
    [⟨0, 0, AtomDiscriminants.TestUsize⟩, ⟨1, 0, AtomDiscriminants.TestUsize⟩]⟩

/-- An `Entity` output port of node 0. -/
def witOutE : OutputParameter := ⟨0, 0, AtomDiscriminants.Entity⟩

/-- A `TestUsize` input port of node 0. -/
def witInT : InputParameter := ⟨0, 0, AtomDiscriminants.TestUsize⟩

/- ===== Shared lemmas ===== -/

theorem mark_changed_live (w : World) (s : InputParameter) (v : Atom)
    (h : sinkLive w s = true) :
    s.mark_changed w v = Except.ok (s.node, s.idx, v) := by
  unfold sinkLive at h
  unfold InputParameter.mark_changed
  cases hu : w.upgrade s.node with
  | none => rw [hu] at h; simp at h
  | some n =>
      rw [hu] at h
      simp at h
      simp [h]

theorem dispatchSinks_all_live (w : World) (v : Atom) (sinks : List InputParameter)
    (h : sinks.all (sinkLive w) = true) :
    dispatchSinks w v sinks = (sinks.map fun s => (s.node, s.idx, v), none) := by
  induction sinks with
  | nil => rfl
  | cons s rest ih =>
      simp only [List.all_cons, Bool.and_eq_true] at h
      unfold dispatchSinks
      rw [mark_changed_live w s v h.1, ih h.2]
      rfl

theorem link_update_ok (lt : AtomDiscriminants) (lv : Option Atom)
    (ls : List InputParameter) (w : World) (v : Atom)
    (htyp : lt = v.discriminant) (halive : ls.all (sinkLive w) = true) :
    Link.update ⟨lt, lv, ls⟩ w v =
      ⟨⟨lt, some v, ls⟩, ls.map (fun s => (s.node, s.idx, v)), none⟩ := by
  simp only [Link.update]
  rw [if_pos htyp, dispatchSinks_all_live w v ls halive]

/- ===== Claim theorems ===== -/

/-- Claim C3: for a Link with k subscribed input ports, all of whose
owning nodes are alive (and hold a reaction callback at the
subscribed index), `update(v)` with a discriminant-matching `v`
invokes exactly k reaction callbacks, each receiving `v`, in
subscription order, without panicking; the invocation trace is
exactly one event per currently subscribed sink, so sinks added after
the call are not invoked by it. -/
theorem link_update_fanout (l : Link) (w : World) (v : Atom)
    (htyp : l.typ = v.discriminant)
    (halive : l.sinks.all (sinkLive w) = true) :
    (l.update w v).events = l.sinks.map (fun s => (s.node, s.idx, v)) ∧
    (l.update w v).events.length = l.sinks.length ∧
    (l.update w v).panicMsg = none := by
  obtain ⟨lt, lv, ls⟩ := l
  rw [link_update_ok lt lv ls w v htyp halive]
  simp

/-- Witness for C3: a two-sink link in a two-node world. -/
theorem link_update_fanout_witness :
    witLink2.typ = (Atom.TestUsize 7).discriminant ∧
    witLink2.sinks.all (sinkLive witWorld2) = true ∧
    (witLink2.update witWorld2 (Atom.TestUsize 7)).events
      = [(0, 0, Atom.TestUsize 7), (1, 0, Atom.TestUsize 7)] := by
  refine ⟨by decide, by decide, ?_⟩
  have h := link_update_fanout witLink2 witWorld2 (Atom.TestUsize 7) (by decide) (by decide)
  rw [h.1]
  decide

/-- Claim C6: a fresh Link's `latest` is absent; after `update(v1)`
then `update(v2)` (both discriminant-matching, both completing
without a panic), `get_latest` returns `v2` — last write wins. -/
theorem link_latest_last_write_wins (d : AtomDiscriminants) (l : Link) (w : World)
    (v1 v2 : Atom) :
    (Link.new d).get_latest = none ∧
    (l.typ = v1.discriminant → l.typ = v2.discriminant →
      l.sinks.all (sinkLive w) = true →
      (l.update w v1).panicMsg = none ∧
      ((l.update w v1).link.update w v2).panicMsg = none ∧
      ((l.update w v1).link.update w v2).link.get_latest = some v2) := by
  refine ⟨rfl, fun h1 h2 halive => ?_⟩
  obtain ⟨lt, lv, ls⟩ := l
  rw [link_update_ok lt lv ls w v1 h1 halive]
  simp only
  rw [link_update_ok lt (some v1) ls w v2 h2 halive]
  simp [Link.get_latest]

/-- Witness for C6. -/
theorem link_latest_last_write_wins_witness :
    witLink0.typ = (Atom.TestUsize 1).discriminant ∧
    witLink0.typ = (Atom.TestUsize 2).discriminant ∧
    (Link.new AtomDiscriminants.Entity).get_latest = none ∧
    ((witLink0.update witWorld1 (Atom.TestUsize 1)).link.update witWorld1
      (Atom.TestUsize 2)).link.get_latest = some (Atom.TestUsize 2) := by
  have h := link_latest_last_write_wins AtomDiscriminants.Entity witLink0 witWorld1
    (Atom.TestUsize 1) (Atom.TestUsize 2)
  exact ⟨by decide, by decide, h.1, (h.2 (by decide) (by decide) (by decide)).2.2⟩

/-- Claim C1 is refuted by the code: `InputParameter::mark_changed`
calls `self.node.upgrade().unwrap()`, so dispatching a Link update
through a sink port whose owning node has been destroyed panics
instead of degrading to the no-op the spec demands.  Concrete failing
input: a world whose only node (id 0) is destroyed, a `TestUsize`
link with one sink port owned by node 0, and `update(TestUsize(5))`. -/
theorem update_through_dead_port_panics :
    (Link.update ⟨AtomDiscriminants.TestUsize, none,
        [⟨0, 0, AtomDiscriminants.TestUsize⟩]⟩ witWorldDead (Atom.TestUsize 5)).panicMsg
      = some "called Option.unwrap on a None value" ∧
    InputParameter.mark_changed ⟨0, 0, AtomDiscriminants.TestUsize⟩ witWorldDead
        (Atom.TestUsize 5)
      = Except.error "called Option.unwrap on a None value" :=
  ⟨rfl, rfl⟩

/-- Claim C4: an attach whose source node is alive but whose port
discriminants differ is rejected by the assertion before any
sink-list mutation: a panic is reported and the world — hence every
link's sink count — is unchanged. -/
theorem attach_mismatch_rejected (w : World) (fp : OutputParameter) (tp : InputParameter)
    (halive : (w.upgrade fp.node).isSome = true)
    (hmm : fp.typ ≠ tp.typ) :
    (attach w fp tp).world = w ∧
    (attach w fp tp).panicMsg ≠ none ∧
    sinkCount (attach w fp tp).world fp.node fp.idx = sinkCount w fp.node fp.idx := by
  unfold attach
  cases hu : w.upgrade fp.node with
  | none => rw [hu] at halive; simp at halive
  | some src => refine ⟨?_, ?_, ?_⟩ <;> simp [hmm]

/-- Witness for C4: live source node 0, `Entity` output port against
a `TestUsize` input port. -/
theorem attach_mismatch_rejected_witness :
    (witWorldSrc.upgrade witOutE.node).isSome = true ∧
    witOutE.typ ≠ witInT.typ ∧
    (attach witWorldSrc witOutE witInT).world = witWorldSrc :=
  ⟨by decide, by decide,
    (attach_mismatch_rejected witWorldSrc witOutE witInT (by decide) (by decide)).1⟩

/-- Claim C10: when the output port's owning node has been destroyed,
`attach` silently returns without mutating anything and without ever
reaching the discriminant assertion — even a discriminant-mismatched
attach against a dead source is a silent no-op, not a contract
failure. -/
theorem attach_dead_source_silent_noop (w : World) (fp : OutputParameter)
    (tp : InputParameter) (hdead : w.upgrade fp.node = none)
    (_hmm : fp.typ ≠ tp.typ) :
    attach w fp tp = { world := w, events := [], panicMsg := none } := by
  unfold attach
  rw [hdead]

/-- Witness for C10: destroyed node 0, mismatched discriminants. -/
theorem attach_dead_source_silent_noop_witness :
    witWorldDead.upgrade witOutE.node = none ∧
    witOutE.typ ≠ witInT.typ ∧
    attach witWorldDead witOutE witInT
      = { world := witWorldDead, events := [], panicMsg := none } :=
  ⟨by decide, by decide,
    attach_dead_source_silent_noop witWorldDead witOutE witInT (by decide) (by decide)⟩

/-- Claim C9: attaching never invokes a callback (its event trace is
empty), `add_sink` leaves the cached `latest` value unchanged, and
the newly added subscriber observes exactly the updates performed
after `add_sink`: a subsequent matching `update(v)` delivers to the
previously subscribed sinks in order and then to the new sink, each
receiving `v`. -/
theorem attach_no_retroactive_delivery (w : World) (fp : OutputParameter)
    (tp : InputParameter) (l : Link) (v : Atom) :
    (attach w fp tp).events = [] ∧
    (l.add_sink tp).latest_value = l.latest_value ∧
    (l.typ = v.discriminant → (l.add_sink tp).sinks.all (sinkLive w) = true →
      ((l.add_sink tp).update w v).events =
        l.sinks.map (fun s => (s.node, s.idx, v)) ++ [(tp.node, tp.idx, v)]) := by
  refine ⟨?_, rfl, fun htyp halive => ?_⟩
  · unfold attach
    split
    · rfl
    · split
      · split <;> rfl
      · rfl
  · obtain ⟨lt, lv, ls⟩ := l
    have hs : Link.add_sink ⟨lt, lv, ls⟩ tp = ⟨lt, lv, ls ++ [tp]⟩ := rfl
    rw [hs] at halive ⊢
    rw [link_update_ok lt lv (ls ++ [tp]) w v htyp halive]
    simp

/-- Witness for C9: empty-sink link, new subscriber at live node 0. -/
theorem attach_no_retroactive_delivery_witness :
    witLink0.typ = (Atom.TestUsize 3).discriminant ∧
    (witLink0.add_sink witInT).sinks.all (sinkLive witWorld1) = true ∧
    ((witLink0.add_sink witInT).update witWorld1 (Atom.TestUsize 3)).events
      = [(0, 0, Atom.TestUsize 3)] := by
  refine ⟨by decide, by decide, ?_⟩
  have h := (attach_no_retroactive_delivery witWorld1 witOutE witInT witLink0
    (Atom.TestUsize 3)).2.2 (by decide) (by decide)
  rw [h]
  decide

/-- Counterexample to claim C2: on the catalog `[A, B]` (A: no
inputs, one `TestUsize` output; B: one `TestUsize` input, no
outputs), `generate_graphs` returns exactly `[[A]]`, which contains
no sequence equal to `[A, B]`. -/
theorem generate_graphs_ab_omits_ab :
    generate_graphs [templateA, templateB] = Except.ok [[templateA]] ∧
    [templateA, templateB] ∉ [[templateA]] :=
  ⟨rfl, by decide⟩

/-- Claim C2 amended: on the two-template catalog `[A, B]`,
`generate_graphs` returns exactly one candidate sequence, `[A]`; the
balanced sequence `[A, B]` is never recorded as a result (round 1
records the unbalanced successor `[A]` as a result instead of
extending it, so the queue is empty from round 2 on and `[A, B]` is
never even formed). -/
theorem generate_graphs_ab_result :
    generate_graphs [templateA, templateB] = Except.ok [[templateA]] :=
  rfl

/- ===== Multiset lemmas ===== -/

theorem mem_mkeys_of_mem {m : TypeMultiset} {k : AtomDiscriminants} {c : Nat}
    (h : (k, c) ∈ m) : k ∈ mkeys m :=
  List.mem_map_of_mem Prod.fst h

theorem getCount_of_mem_nodup {m : TypeMultiset} {k : AtomDiscriminants} {c : Nat}
    (hnd : (mkeys m).Nodup) (hmem : (k, c) ∈ m) : getCount m k = some c := by
  induction m with
  | nil => cases hmem
  | cons hd rest ih =>
      obtain ⟨k2, n⟩ := hd
      simp only [mkeys, List.map_cons, List.nodup_cons] at hnd
      rw [List.mem_cons] at hmem
      cases hmem with
      | inl heq =>
          cases heq
          simp [getCount]
      | inr hmem2 =>
          have hk : k2 ≠ k := by
            intro he
            subst he
            exact hnd.1 (mem_mkeys_of_mem hmem2)
          simp only [getCount, if_neg hk]
          exact ih hnd.2 hmem2

theorem contains_iff_entries (h n : TypeMultiset) :
    contains h n = true ↔ ∀ p ∈ n, p.2 ≤ (getCount h p.1).getD 0 := by
  simp [contains, List.all_eq_true]

theorem subCount_some {m : TypeMultiset} {k : AtomDiscriminants} {v : Nat}
    (hv : v ≤ (getCount m k).getD 0) : ∃ m2, subCount m k v = some m2 := by
  induction m with
  | nil => exact ⟨[], rfl⟩
  | cons hd rest ih =>
      obtain ⟨k2, n⟩ := hd
      by_cases hk : k2 = k
      · subst hk
        simp [getCount] at hv
        exact ⟨(k2, n - v) :: rest, by simp [subCount, hv]⟩
      · have hv2 : v ≤ (getCount rest k).getD 0 := by
          simpa [getCount, hk] using hv
        obtain ⟨m2, hm2⟩ := ih hv2
        exact ⟨(k2, n) :: m2, by simp [subCount, hk, hm2]⟩

theorem getCount_subCount_ne {m m2 : TypeMultiset} {k k2 : AtomDiscriminants} {v : Nat}
    (hne : k2 ≠ k) (h : subCount m k v = some m2) : getCount m2 k2 = getCount m k2 := by
  induction m generalizing m2 with
  | nil =>
      simp only [subCount, Option.some.injEq] at h
      subst h
      rfl
  | cons hd rest ih =>
      obtain ⟨k3, n⟩ := hd
      by_cases hk : k3 = k
      · subst hk
        by_cases hvn : v ≤ n
        · simp [subCount, hvn] at h
          subst h
          have hne2 : ¬(k3 = k2) := fun he => hne (he ▸ rfl)
          simp [getCount, hne2]
        · simp [subCount, hvn] at h
      · cases hrest : subCount rest k v with
        | none => simp [subCount, hk, hrest] at h
        | some m3 =>
            simp [subCount, hk, hrest] at h
            subst h
            by_cases hk2 : k3 = k2 <;> simp [getCount, hk2, ih hrest]

theorem subAll_some {s : TypeMultiset} :
    ∀ {m : TypeMultiset}, (mkeys s).Nodup →
    (∀ p ∈ s, p.2 ≤ (getCount m p.1).getD 0) → ∃ m2, subAll m s = some m2 := by
  induction s with
  | nil => exact fun _ _ => ⟨_, rfl⟩
  | cons hd rest ih =>
      obtain ⟨k, c⟩ := hd
      intro m hnd hall
      simp only [mkeys, List.map_cons, List.nodup_cons] at hnd
      obtain ⟨m1, hm1⟩ := subCount_some (hall (k, c) (List.mem_cons_self _ _))
      have hall2 : ∀ p ∈ rest, p.2 ≤ (getCount m1 p.1).getD 0 := by
        intro p hp
        have hne : p.1 ≠ k := by
          intro he
          apply hnd.1
          rw [← he]
          exact mem_mkeys_of_mem hp
        rw [getCount_subCount_ne hne hm1]
        exact hall p (List.mem_cons_of_mem _ hp)
      obtain ⟨m2, hm2⟩ := ih hnd.2 hall2
      exact ⟨m2, by simp [subAll, hm1, hm2]⟩

theorem mem_mkeys_addCount {m : TypeMultiset} {k k2 : AtomDiscriminants} {v : Nat} :
    k2 ∈ mkeys (addCount m k v) ↔ k2 ∈ mkeys m ∨ k2 = k := by
  induction m with
  | nil => simp [addCount, mkeys]
  | cons hd rest ih =>
      obtain ⟨k3, n⟩ := hd
      by_cases hk : k3 = k
      · subst hk
        simp [addCount, mkeys]
        tauto
      · simp [addCount, hk, mkeys] at ih ⊢
        rw [ih]
        tauto

theorem nodup_mkeys_addCount {m : TypeMultiset} {k : AtomDiscriminants} {v : Nat}
    (h : (mkeys m).Nodup) : (mkeys (addCount m k v)).Nodup := by
  induction m with
  | nil => simp [addCount, mkeys]
  | cons hd rest ih =>
      obtain ⟨k3, n⟩ := hd
      simp only [mkeys, List.map_cons, List.nodup_cons] at h
      by_cases hk : k3 = k
      · subst hk
        have he : addCount ((k3, n) :: rest) k3 v = (k3, n + v) :: rest := by
          simp [addCount]
        rw [he]
        simp only [mkeys, List.map_cons, List.nodup_cons]
        exact h
      · have he : addCount ((k3, n) :: rest) k v = (k3, n) :: addCount rest k v := by
          simp [addCount, hk]
        rw [he]
        simp only [mkeys, List.map_cons, List.nodup_cons]
        refine ⟨?_, ih h.2⟩
        intro hmem
        rcases mem_mkeys_addCount.1 hmem with h2 | h2
        · exact h.1 h2
        · exact hk h2

theorem nodup_mkeys_type_set (l : List AtomDiscriminants) :
    (mkeys (type_set l)).Nodup := by
  have hgen : ∀ (l2 : List AtomDiscriminants) (m : TypeMultiset), (mkeys m).Nodup →
      (mkeys (l2.foldl (fun counts typ => addCount counts typ 1) m)).Nodup := by
    intro l2
    induction l2 with
    | nil => exact fun m h => h
    | cons t rest ih => exact fun m h => ih (addCount m t 1) (nodup_mkeys_addCount h)
  exact hgen l [] (by simp [mkeys])

/-- Claim C7: `contains(haystack, needle)` holds iff every discriminant
of `needle` has a count in `haystack` at least its count in `needle`
(absent entries read as zero; multisets built by the code have
duplicate-free key lists), and the five specific instances:
`contains(S, S)`, `contains(S, {})`, `¬contains({}, {x:1})`,
`contains({x:2}, {x:1})`, `¬contains({x:1}, {x:2})`. -/
theorem contains_characterization (haystack needle S : TypeMultiset)
    (x : AtomDiscriminants) :
    ((mkeys needle).Nodup →
      (contains haystack needle = true ↔
        ∀ k ∈ mkeys needle,
          (getCount needle k).getD 0 ≤ (getCount haystack k).getD 0)) ∧
    ((mkeys S).Nodup → contains S S = true) ∧
    contains S [] = true ∧
    contains [] [(x, 1)] = false ∧
    contains [(x, 2)] [(x, 1)] = true ∧
    contains [(x, 1)] [(x, 2)] = false := by
  refine ⟨fun hnd => ?_, fun hnd => ?_, rfl, by simp [contains, getCount],
    by simp [contains, getCount], by simp [contains, getCount]⟩
  · rw [contains_iff_entries]
    constructor
    · intro hall k hkmem
      rcases List.mem_map.1 hkmem with ⟨p, hp, rfl⟩
      obtain ⟨k0, c0⟩ := p
      rw [getCount_of_mem_nodup hnd hp]
      simpa using hall (k0, c0) hp
    · intro hall p hp
      obtain ⟨k0, c0⟩ := p
      have h2 := hall k0 (mem_mkeys_of_mem hp)
      rw [getCount_of_mem_nodup hnd hp] at h2
      simpa using h2
  · rw [contains_iff_entries]
    intro p hp
    obtain ⟨k0, c0⟩ := p
    rw [getCount_of_mem_nodup hnd hp]
    simp

/-- Witness for C7 at concrete multisets. -/
theorem contains_characterization_witness :
    (mkeys [(AtomDiscriminants.Entity, 1)]).Nodup ∧
    (mkeys [(AtomDiscriminants.Entity, 2), (AtomDiscriminants.TestUsize, 1)]).Nodup ∧
    (contains [(AtomDiscriminants.Entity, 2)] [(AtomDiscriminants.Entity, 1)] = true ↔
      ∀ k ∈ mkeys [(AtomDiscriminants.Entity, 1)],
        (getCount [(AtomDiscriminants.Entity, 1)] k).getD 0
          ≤ (getCount [(AtomDiscriminants.Entity, 2)] k).getD 0) ∧
    contains [(AtomDiscriminants.Entity, 2), (AtomDiscriminants.TestUsize, 1)]
      [(AtomDiscriminants.Entity, 2), (AtomDiscriminants.TestUsize, 1)] = true :=
  ⟨by decide, by decide,
    (contains_characterization [(AtomDiscriminants.Entity, 2)]
      [(AtomDiscriminants.Entity, 1)]
      [(AtomDiscriminants.Entity, 2), (AtomDiscriminants.TestUsize, 1)]
      AtomDiscriminants.Entity).1 (by decide),
    (contains_characterization [(AtomDiscriminants.Entity, 2)]
      [(AtomDiscriminants.Entity, 1)]
      [(AtomDiscriminants.Entity, 2), (AtomDiscriminants.TestUsize, 1)]
      AtomDiscriminants.Entity).2.1 (by decide)⟩

/- ===== Equation lemmas and totality of the synthesis search ===== -/

theorem processTemplates_nil (available : TypeMultiset) (path : List NodeTemplate) :
    processTemplates [] available path = .ok ([], []) := rfl

theorem processTemplates_cons (inSet : TypeMultiset) (t : NodeTemplate)
    (outSet : TypeMultiset) (rest : List (TypeMultiset × NodeTemplate × TypeMultiset))
    (available : TypeMultiset) (path : List NodeTemplate) :
    processTemplates ((inSet, t, outSet) :: rest) available path =
      if contains available inSet then
        match subAll available inSet with
        | none => .error "attempt to subtract with overflow"
        | some afterSub =>
            match processTemplates rest available path with
            | .error e => .error e
            | .ok (qs, rs) =>
                if allZero (addAll afterSub outSet) then
                  .ok ((addAll afterSub outSet, path ++ [t]) :: qs, rs)
                else .ok (qs, (path ++ [t]) :: rs)
      else processTemplates rest available path := rfl

theorem roundsGG_succ_nil (tbt : List (TypeMultiset × NodeTemplate × TypeMultiset))
    (n : Nat) (results : List (List NodeTemplate)) :
    roundsGG tbt (n + 1) [] results = roundsGG tbt n [] results := rfl

theorem roundsGG_succ_cons (tbt : List (TypeMultiset × NodeTemplate × TypeMultiset))
    (n : Nat) (available : TypeMultiset) (path : List NodeTemplate)
    (restQ : List (TypeMultiset × List NodeTemplate))
    (results : List (List NodeTemplate)) :
    roundsGG tbt (n + 1) ((available, path) :: restQ) results =
      match processTemplates tbt available path with
      | .error e => .error e
      | .ok (qs, rs) => roundsGG tbt n (restQ ++ qs) (results ++ rs) := rfl

theorem processTemplates_ok (tbt : List (TypeMultiset × NodeTemplate × TypeMultiset))
    (available : TypeMultiset) (path : List NodeTemplate)
    (h : ∀ e ∈ tbt, (mkeys e.1).Nodup) :
    ∃ out, processTemplates tbt available path = .ok out := by
  induction tbt with
  | nil => exact ⟨([], []), rfl⟩
  | cons hd rest ih =>
      obtain ⟨inSet, t, outSet⟩ := hd
      obtain ⟨out0, hrest⟩ := ih fun e he => h e (List.mem_cons_of_mem _ he)
      obtain ⟨qs, rs⟩ := out0
      by_cases hc : contains available inSet = true
      · have hnd : (mkeys inSet).Nodup := h (inSet, t, outSet) (List.mem_cons_self _ _)
        have hall := (contains_iff_entries available inSet).1 hc
        obtain ⟨m2, hm2⟩ := subAll_some hnd hall
        by_cases hz : allZero (addAll m2 outSet) = true
        · refine ⟨((addAll m2 outSet, path ++ [t]) :: qs, rs), ?_⟩
          simp [processTemplates_cons, hc, hm2, hrest, hz]
        · refine ⟨(qs, (path ++ [t]) :: rs), ?_⟩
          simp [processTemplates_cons, hc, hm2, hrest, hz]
      · refine ⟨(qs, rs), ?_⟩
        simp [processTemplates_cons, hc, hrest]

theorem roundsGG_ok (tbt : List (TypeMultiset × NodeTemplate × TypeMultiset))
    (h : ∀ e ∈ tbt, (mkeys e.1).Nodup) :
    ∀ (n : Nat) (queue : List (TypeMultiset × List NodeTemplate))
      (results : List (List NodeTemplate)),
    ∃ rs, roundsGG tbt n queue results = .ok rs := by
  intro n
  induction n with
  | zero => exact fun _ results => ⟨results, rfl⟩
  | succ n ih =>
      intro queue results
      cases queue with
      | nil =>
          obtain ⟨rs, hrs⟩ := ih [] results
          exact ⟨rs, by rw [roundsGG_succ_nil, hrs]⟩
      | cons hd restQ =>
          obtain ⟨available, path⟩ := hd
          obtain ⟨⟨qs, rs0⟩, hpt⟩ := processTemplates_ok tbt available path h
          obtain ⟨rs, hrs⟩ := ih (restQ ++ qs) (results ++ rs0)
          exact ⟨rs, by rw [roundsGG_succ_cons, hpt]; exact hrs⟩

/-- Claim C8: no multiset count ever underflows in `generate_graphs`:
every subtraction of a template's input counts happens only on a
frontier multiset that `contains` has verified component-wise, so the
u8 `*e -= count` never wraps and `generate_graphs` always returns a
result (never the modelled subtract-with-overflow panic), for every
catalog. -/
theorem generate_graphs_no_underflow (templates : List NodeTemplate) :
    ∃ rs, generate_graphs templates = Except.ok rs := by
  have h : ∀ e ∈ templates.map fun t => (type_set t.in_types, t, type_set t.out_types),
      (mkeys e.1).Nodup := by
    intro e he
    simp only [List.mem_map] at he
    obtain ⟨t, ht, rfl⟩ := he
    exact nodup_mkeys_type_set t.in_types
  exact roundsGG_ok _ h 4 [([], [])] []

/-- Claim C5: in the search loop of `generate_graphs`, every successor
derived from a dequeued frontier entry — for each catalog template
whose input multiset is contained in the entry's available multiset:
available minus the template's input counts plus its output counts,
path extended by the template — is classified by `all counts zero`:
if every discriminant count of the successor multiset is exactly zero
it is among the entries pushed back onto the work queue, otherwise its
path is among the entries appended to the returned results. -/
theorem processTemplates_classification :
    ∀ (tbt : List (TypeMultiset × NodeTemplate × TypeMultiset))
      (available : TypeMultiset) (path : List NodeTemplate)
      (qs : List (TypeMultiset × List NodeTemplate)) (rs : List (List NodeTemplate)),
    processTemplates tbt available path = .ok (qs, rs) →
    ∀ (inSet : TypeMultiset) (t : NodeTemplate) (outSet afterSub : TypeMultiset),
      (inSet, t, outSet) ∈ tbt →
      contains available inSet = true →
      subAll available inSet = some afterSub →
      (allZero (addAll afterSub outSet) = true →
        (addAll afterSub outSet, path ++ [t]) ∈ qs) ∧
      (allZero (addAll afterSub outSet) = false →
        (path ++ [t]) ∈ rs) := by
  intro tbt
  induction tbt with
  | nil =>
      intro available path qs rs hok inSet t outSet afterSub hmem
      cases hmem
  | cons hd rest ih =>
      obtain ⟨inSet0, t0, outSet0⟩ := hd
      intro available path qs rs hok inSet t outSet afterSub hmem hcon hsub
      rw [List.mem_cons] at hmem
      by_cases hc0 : contains available inSet0 = true
      · cases hsub0 : subAll available inSet0 with
        | none =>
            have hval : processTemplates ((inSet0, t0, outSet0) :: rest) available path
                = .error "attempt to subtract with overflow" := by
              simp [processTemplates_cons, hc0, hsub0]
            rw [hval] at hok
            exact Except.noConfusion hok
        | some afterSub0 =>
            cases hrest : processTemplates rest available path with
            | error e =>
                have hval : processTemplates ((inSet0, t0, outSet0) :: rest) available path
                    = .error e := by
                  simp [processTemplates_cons, hc0, hsub0, hrest]
                rw [hval] at hok
                exact Except.noConfusion hok
            | ok pr =>
                obtain ⟨qs0, rs0⟩ := pr
                have hval : processTemplates ((inSet0, t0, outSet0) :: rest) available path
                    = if allZero (addAll afterSub0 outSet0) = true then
                        .ok ((addAll afterSub0 outSet0, path ++ [t0]) :: qs0, rs0)
                      else .ok (qs0, (path ++ [t0]) :: rs0) := by
                  by_cases hz : allZero (addAll afterSub0 outSet0) = true
                  · simp [processTemplates_cons, hc0, hsub0, hrest, hz]
                  · simp [processTemplates_cons, hc0, hsub0, hrest, hz]
                rw [hval] at hok
                cases hmem with
                | inl heq =>
                    injection heq with ha hbc
                    injection hbc with hb hc2
                    subst ha
                    subst hb
                    subst hc2
                    rw [hsub] at hsub0
                    injection hsub0 with hsub1
                    subst hsub1
                    constructor
                    · intro hz
                      rw [if_pos hz] at hok
                      injection hok with hok2
                      injection hok2 with hq hr
                      rw [← hq]
                      exact List.mem_cons_self _ _
                    · intro hz
                      have hz2 : ¬(allZero (addAll afterSub outSet) = true) := by
                        simp [hz]
                      rw [if_neg hz2] at hok
                      injection hok with hok2
                      injection hok2 with hq hr
                      rw [← hr]
                      exact List.mem_cons_self _ _
                | inr hmem2 =>
                    have hih := ih available path qs0 rs0 hrest inSet t outSet afterSub
                      hmem2 hcon hsub
                    by_cases hz : allZero (addAll afterSub0 outSet0) = true
                    · rw [if_pos hz] at hok
                      injection hok with hok2
                      injection hok2 with hq hr
                      refine ⟨fun hz2 => ?_, fun hz2 => ?_⟩
                      · rw [← hq]
                        exact List.mem_cons_of_mem _ (hih.1 hz2)
                      · rw [← hr]
                        exact hih.2 hz2
                    · rw [if_neg hz] at hok
                      injection hok with hok2
                      injection hok2 with hq hr
                      refine ⟨fun hz2 => ?_, fun hz2 => ?_⟩
                      · rw [← hq]
                        exact hih.1 hz2
                      · rw [← hr]
                        exact List.mem_cons_of_mem _ (hih.2 hz2)
      · have hval : processTemplates ((inSet0, t0, outSet0) :: rest) available path
            = processTemplates rest available path := by
          simp [processTemplates_cons, hc0]
        rw [hval] at hok
        cases hmem with
        | inl heq =>
            injection heq with ha hbc
            subst ha
            exact absurd hcon hc0
        | inr hmem2 =>
            exact ih available path qs rs hok inSet t outSet afterSub hmem2 hcon hsub

/-- The catalog-by-type list for the `[A, B]` test catalog. -/
def witTbt : List (TypeMultiset × NodeTemplate × TypeMultiset) :=
  [([], templateA, [(AtomDiscriminants.TestUsize, 1)]),
   ([(AtomDiscriminants.TestUsize, 1)], templateB, [])]

/-- Witness for C5: the frontier entry `({Usize:1}, [A])` of the
`[A, B]` catalog; template B's successor is fully balanced and lands
on the queue-push list. -/
theorem processTemplates_classification_witness :
    processTemplates witTbt [(AtomDiscriminants.TestUsize, 1)] [templateA]
      = Except.ok ([([(AtomDiscriminants.TestUsize, 0)], [templateA, templateB])],
          [[templateA, templateA]]) ∧
    ([(AtomDiscriminants.TestUsize, 1)], templateB, ([] : TypeMultiset)) ∈ witTbt ∧
    contains [(AtomDiscriminants.TestUsize, 1)] [(AtomDiscriminants.TestUsize, 1)] = true ∧
    subAll [(AtomDiscriminants.TestUsize, 1)] [(AtomDiscriminants.TestUsize, 1)]
      = some [(AtomDiscriminants.TestUsize, 0)] ∧
    allZero (addAll [(AtomDiscriminants.TestUsize, 0)] []) = true ∧
    (addAll [(AtomDiscriminants.TestUsize, 0)] [], [templateA] ++ [templateB])
      ∈ [([(AtomDiscriminants.TestUsize, 0)], [templateA, templateB])] := by
  refine ⟨rfl, by decide, by decide, by decide, by decide, ?_⟩
  exact (processTemplates_classification witTbt [(AtomDiscriminants.TestUsize, 1)]
    [templateA] [([(AtomDiscriminants.TestUsize, 0)], [templateA, templateB])]
    [[templateA, templateA]] rfl [(AtomDiscriminants.TestUsize, 1)] templateB []
    [(AtomDiscriminants.TestUsize, 0)] (by decide) (by decide) (by decide)).1 (by decide)
